import Mathlib

/-!
# Verification of the kube-observe condition core

Shallow embedding of `crates/kube-observe/src/conditions.rs`.

Modelling decisions:
* `Time` (a `chrono` UTC timestamp) is modelled as `Nat`; the wall clock read
  `Utc::now()` is passed explicitly as a `now : Nat` argument.
* The `i64` metadata generation is modelled as `Int` (only equality is ever
  performed on it, never arithmetic).
* A resource (`impl Resource`) is only ever used through `.meta().generation`,
  so it is modelled by `ObjectMeta` carrying that one field.
* Rust's stable `Vec::sort_by_key` is modelled by `List.insertionSort`
  (insertion sort is stable, and a stable sort's output is uniquely determined
  by the key order and the input order, so this is behaviour-faithful).
* `Vec::dedup_by_key` (drop an element whose key equals the key of the last
  retained element) is modelled by `dedup_by_key` below.
* Panicking code (`unimplemented!`) is modelled with `Option`, `none` meaning
  the call panics.
-/

/-- `k8s_openapi` `Condition` (meta/v1), fields in declaration order. -/
structure Condition where
  last_transition_time : Nat
  message : String
  observed_generation : Option Int
  reason : String
  status : String
  type_ : String
deriving Repr, DecidableEq

/-- The only capability of `kube::Resource` used by the code:
`resource.meta().generation`. -/
structure ObjectMeta where
  generation : Option Int
deriving Repr, DecidableEq

/-- `fn update_condition<F>(condition: &mut Condition, mut f: F) -> &mut Condition`:
apply `f` to a clone, compare the four fields `observed_generation`, `reason`,
`status`, `message`; on any difference apply `f` to the real condition and
stamp `last_transition_time` with the current time, else leave it untouched. -/
def update_condition (f : Condition → Condition) (now : Nat) (condition : Condition) :
    Condition :=
  let modified_condition := f condition
  if modified_condition.observed_generation ≠ condition.observed_generation
      ∨ modified_condition.reason ≠ condition.reason
      ∨ modified_condition.status ≠ condition.status
      ∨ modified_condition.message ≠ condition.message then
    { f condition with last_transition_time := now }
  else
    condition

/-- `ConditionExt::is_true`. -/
def is_true (c : Condition) : Bool :=
  c.status == "True"

/-- `ConditionExt::is_false`. -/
def is_false (c : Condition) : Bool :=
  c.status == "False"

/-- `ConditionExt::is_unknown`. -/
def is_unknown (c : Condition) : Bool :=
  c.status == "Unknown"

/-- `ConditionExt::has_reason`. -/
def has_reason (c : Condition) (reason : String) : Bool :=
  c.reason == reason

/-- `ConditionExt::is_current`. -/
def is_current (c : Condition) (resource : ObjectMeta) : Bool :=
  c.observed_generation == resource.generation

/-- `ConditionExt::set_true`. -/
def set_true (now : Nat) (c : Condition) : Condition :=
  update_condition (fun c => { c with status := "True" }) now c

/-- `ConditionExt::set_false`. -/
def set_false (now : Nat) (c : Condition) : Condition :=
  update_condition (fun c => { c with status := "False" }) now c

/-- `ConditionExt::set_unknown`. -/
def set_unknown (now : Nat) (c : Condition) : Condition :=
  update_condition (fun c => { c with status := "Unknown" }) now c

/-- `ConditionExt::set_reason`. -/
def set_reason (reason : String) (now : Nat) (c : Condition) : Condition :=
  update_condition (fun c => { c with reason := reason }) now c

/-- `ConditionExt::set_message`. -/
def set_message (message : String) (now : Nat) (c : Condition) : Condition :=
  update_condition (fun c => { c with message := message }) now c

/-- `ConditionExt::set_generation_from`. -/
def set_generation_from (resource : ObjectMeta) (now : Nat) (c : Condition) : Condition :=
  update_condition (fun c => { c with observed_generation := resource.generation }) now c

/-- `fn generate_unknown_condition(type_: String) -> Condition`. -/
def generate_unknown_condition (type_ : String) (now : Nat) : Condition :=
  { last_transition_time := now
    message := ""
    observed_generation := none
    reason := ""
    status := "Unknown"
    type_ := type_ }

theorem update_condition_status (c : Condition) (now : Nat) (s : String) :
    update_condition (fun c => { c with status := s }) now c =
      if c.status = s then c
      else { c with status := s, last_transition_time := now } := by
  cases c with
  | mk ltt msg og r st ty =>
    by_cases h : st = s <;> simp [update_condition, h] <;> exact fun hh => h hh.symm

theorem update_condition_reason (c : Condition) (now : Nat) (s : String) :
    update_condition (fun c => { c with reason := s }) now c =
      if c.reason = s then c
      else { c with reason := s, last_transition_time := now } := by
  cases c with
  | mk ltt msg og r st ty =>
    by_cases h : r = s <;> simp [update_condition, h] <;> exact fun hh => h hh.symm

theorem update_condition_message (c : Condition) (now : Nat) (s : String) :
    update_condition (fun c => { c with message := s }) now c =
      if c.message = s then c
      else { c with message := s, last_transition_time := now } := by
  cases c with
  | mk ltt msg og r st ty =>
    by_cases h : msg = s <;> simp [update_condition, h] <;> exact fun hh => h hh.symm

theorem update_condition_generation (c : Condition) (now : Nat) (g : Option Int) :
    update_condition (fun c => { c with observed_generation := g }) now c =
      if c.observed_generation = g then c
      else { c with observed_generation := g, last_transition_time := now } := by
  cases c with
  | mk ltt msg og r st ty =>
    by_cases h : og = g <;> simp [update_condition, h] <;> exact fun hh => h hh.symm

/-- The key order used by `conditions.sort_by_key(|c| c.type_.clone())`:
comparison of the `type_` keys (Rust `String` order and Lean `String` order
agree: both are lexicographic, and UTF-8 byte order coincides with code-point
order). -/
def typeLe (a b : Condition) : Prop :=
  a.type_ ≤ b.type_

/-- Strict version of [typeLe]; strictly increasing keys capture both the
ordering and the per-key uniqueness of a condition list. -/
def typeLt (a b : Condition) : Prop :=
  a.type_ < b.type_

instance : DecidableRel typeLe :=
  fun a b => inferInstanceAs (Decidable (a.type_ ≤ b.type_))

instance : IsTotal Condition typeLe :=
  ⟨fun a b => le_total a.type_ b.type_⟩

instance : IsTrans Condition typeLe :=
  ⟨fun _ _ _ h₁ h₂ => le_trans h₁ h₂⟩

/-- `conditions.sort_by_key(|c| c.type_.clone())`. Rust's `sort_by_key` is a
stable sort; a stable sort's output is uniquely determined by the key order
and the input order, so the stable `List.insertionSort` models it exactly. -/
def sort_by_key (l : List Condition) : List Condition :=
  List.insertionSort typeLe l

/-- Loop of [dedup_by_key]: `a` is the last retained element; the next element
is dropped when its key equals the key of `a`. -/
def dedupGo (a : Condition) : List Condition → List Condition
  | [] => [a]
  | b :: rest => if a.type_ = b.type_ then dedupGo a rest else a :: dedupGo b rest

/-- `conditions.dedup_by_key(|c| c.type_.clone())`: remove all but the first of
each run of consecutive elements with equal `type_` keys. -/
def dedup_by_key : List Condition → List Condition
  | [] => []
  | a :: rest => dedupGo a rest

/-- The test-only custom resource `Dummy`'s status: `conditions: Option<Vec<Condition>>`. -/
structure DummyStatus where
  conditions : Option (List Condition)
deriving Repr, DecidableEq

/-- The test-only custom resource `Dummy` (its `DummySpec` is an empty struct
and never read, so it is not carried here). -/
structure Dummy where
  metadata : ObjectMeta
  status : Option DummyStatus
deriving Repr, DecidableEq

/-- The condition list held by a `Dummy`, with the `unwrap_or_default`
defaulting used on the read path. -/
def conditions_of (d : Dummy) : List Condition :=
  (d.status.getD { conditions := none }).conditions.getD []

/-- `impl HasStatusConditions for Dummy`, `fn condition`: first condition whose
type matches, else a fresh Unknown condition. -/
def Dummy.condition (d : Dummy) (t : String) (now : Nat) : Condition :=
  ((conditions_of d).find? (fun c => c.type_ == t)).getD (generate_unknown_condition t now)

/-- `impl HasStatusConditions for Dummy`, `fn condition_mut`: push a fresh
Unknown condition, sort by type key, dedup by type key, then find the entry by
type again. The returned entry is an `Option` because the Rust code unwraps
the final find; `none` models that panic. The first component is the resource
after the call (`get_or_insert_default` materializes the status and list). -/
def Dummy.condition_mut (d : Dummy) (t : String) (now : Nat) : Dummy × Option Condition :=
  let conditions := (d.status.getD { conditions := none }).conditions.getD []
  let conditions := conditions ++ [generate_unknown_condition t now]
  let conditions := sort_by_key conditions
  let conditions := dedup_by_key conditions
  ({ d with status := some { conditions := some conditions } },
    conditions.find? (fun c => c.type_ == t))

/-- A `Dummy` as built by `Dummy::new` in the tests: no status yet. -/
def freshDummy : Dummy :=
  { metadata := { generation := none }, status := none }

/-- A finite sequence of `condition_mut` calls, each with a type name and the
wall-clock value observed during that call. -/
def run_calls (d : Dummy) : List (String × Nat) → Dummy
  | [] => d
  | c :: rest => run_calls (Dummy.condition_mut d c.1 c.2).1 rest

/-- `k8s_openapi` `PodCondition`; only the fields the code reads are carried
(`last_probe_time` is never touched). -/
structure PodCondition where
  last_transition_time : Option Nat
  message : Option String
  reason : Option String
  status : String
  type_ : String
deriving Repr, DecidableEq

/-- `PodStatus`, restricted to the `conditions` field the code reads. -/
structure PodStatus where
  conditions : Option (List PodCondition)
deriving Repr, DecidableEq

/-- `Pod`, restricted to the `status` field the code reads. -/
structure Pod where
  status : Option PodStatus
deriving Repr, DecidableEq

/-- The condition list held by a `Pod`, with the `unwrap_or_default` chain of
the read path. -/
def podConditions (p : Pod) : List PodCondition :=
  (p.status.getD { conditions := none }).conditions.getD []

/-- Conversion applied by `Pod::condition` to a found `PodCondition`. -/
def podConditionToCondition (pc : PodCondition) (now : Nat) : Condition :=
  { last_transition_time := pc.last_transition_time.getD now
    message := pc.message.getD ""
    observed_generation := none
    reason := pc.reason.getD ""
    status := pc.status
    type_ := pc.type_ }

/-- `impl HasStatusConditions for Pod`, `fn condition`. -/
def Pod.condition (p : Pod) (t : String) (now : Nat) : Condition :=
  match (podConditions p).find? (fun c => c.type_ == t) with
  | some pc => podConditionToCondition pc now
  | none => generate_unknown_condition t now

/-- The accessor seen as a transformation of the resource state: the Rust
signature borrows the pod immutably (`&self`) and works on a clone of the
status, so the call yields the answer together with the (unchanged) pod. -/
def Pod.conditionCall (p : Pod) (t : String) (now : Nat) : Condition × Pod :=
  (Pod.condition p t now, p)

/-- `impl HasStatusConditions for Pod`, `fn condition_mut`: the body is
`unimplemented!()`, a panic on every input, modelled as `none`. -/
def Pod.condition_mut (_p : Pod) (_type_ : String) : Option (Condition × Pod) :=
  none

/-- `k8s_openapi` `NodeCondition`; only the fields the code reads are carried
(`last_heartbeat_time` is never touched). -/
structure NodeCondition where
  last_transition_time : Option Nat
  message : Option String
  reason : Option String
  status : String
  type_ : String
deriving Repr, DecidableEq

/-- `NodeStatus`, restricted to the `conditions` field the code reads. -/
structure NodeStatus where
  conditions : Option (List NodeCondition)
deriving Repr, DecidableEq

/-- `Node`, restricted to the `status` field the code reads. -/
structure Node where
  status : Option NodeStatus
deriving Repr, DecidableEq

/-- The condition list held by a `Node`. -/
def nodeConditions (n : Node) : List NodeCondition :=
  (n.status.getD { conditions := none }).conditions.getD []

/-- Conversion applied by `Node::condition` to a found `NodeCondition`. -/
def nodeConditionToCondition (nc : NodeCondition) (now : Nat) : Condition :=
  { last_transition_time := nc.last_transition_time.getD now
    message := nc.message.getD ""
    observed_generation := none
    reason := nc.reason.getD ""
    status := nc.status
    type_ := nc.type_ }

/-- `impl HasStatusConditions for Node`, `fn condition`. -/
def Node.condition (n : Node) (t : String) (now : Nat) : Condition :=
  match (nodeConditions n).find? (fun c => c.type_ == t) with
  | some nc => nodeConditionToCondition nc now
  | none => generate_unknown_condition t now

/-- The accessor on `Node` as a transformation of the resource state
(immutable borrow, clone of the status). -/
def Node.conditionCall (n : Node) (t : String) (now : Nat) : Condition × Node :=
  (Node.condition n t now, n)

/-- The accessor on `Dummy` as a transformation of the resource state
(immutable borrow, clone of the status). -/
def Dummy.conditionCall (d : Dummy) (t : String) (now : Nat) : Condition × Dummy :=
  (Dummy.condition d t now, d)

/-- `impl HasStatusConditions for Node`, `fn condition_mut`:
`unimplemented!()`, a panic on every input, modelled as `none`. -/
def Node.condition_mut (_n : Node) (_type_ : String) : Option (Condition × Node) :=
  none

theorem dedupGo_subset : ∀ (l : List Condition) (a x : Condition),
    x ∈ dedupGo a l → x = a ∨ x ∈ l
  | [], a, x, h => Or.inl (by simpa [dedupGo] using h)
  | b :: rest, a, x, h => by
    simp only [dedupGo] at h
    split at h
    · rcases dedupGo_subset rest a x h with h' | h'
      · exact Or.inl h'
      · exact Or.inr (List.mem_cons_of_mem _ h')
    · rcases List.mem_cons.mp h with h' | h'
      · exact Or.inl h'
      · rcases dedupGo_subset rest b x h' with h'' | h''
        · exact Or.inr (h'' ▸ List.mem_cons_self _ _)
        · exact Or.inr (List.mem_cons_of_mem _ h'')

theorem dedupGo_keys : ∀ (l : List Condition) (a : Condition) (k : String),
    (a.type_ = k ∨ ∃ c ∈ l, c.type_ = k) → ∃ c ∈ dedupGo a l, c.type_ = k
  | [], a, k, h => by
    rcases h with h | h
    · exact ⟨a, by simp [dedupGo], h⟩
    · simp at h
  | b :: rest, a, k, h => by
    simp only [dedupGo]
    split
    case isTrue heq =>
      apply dedupGo_keys rest a k
      rcases h with h | ⟨c, hc, hck⟩
      · exact Or.inl h
      · rcases List.mem_cons.mp hc with rfl | hc'
        · exact Or.inl (heq.symm ▸ hck)
        · exact Or.inr ⟨c, hc', hck⟩
    case isFalse hne =>
      rcases h with h | ⟨c, hc, hck⟩
      · exact ⟨a, List.mem_cons_self _ _, h⟩
      · rcases List.mem_cons.mp hc with rfl | hc'
        · obtain ⟨c', hc', hck'⟩ := dedupGo_keys rest c k (Or.inl hck)
          exact ⟨c', List.mem_cons_of_mem _ hc', hck'⟩
        · obtain ⟨c', hc', hck'⟩ := dedupGo_keys rest b k (Or.inr ⟨c, hc', hck⟩)
          exact ⟨c', List.mem_cons_of_mem _ hc', hck'⟩

theorem dedupGo_pairwise : ∀ (l : List Condition) (a : Condition),
    List.Sorted typeLe (a :: l) → List.Pairwise typeLt (dedupGo a l)
  | [], _, _ => by simp [dedupGo]
  | b :: rest, a, h => by
    rw [List.sorted_cons] at h
    obtain ⟨hab, hrest⟩ := h
    rw [List.sorted_cons] at hrest
    obtain ⟨hbr, hrest'⟩ := hrest
    simp only [dedupGo]
    split
    case isTrue heq =>
      apply dedupGo_pairwise rest a
      rw [List.sorted_cons]
      refine ⟨fun x hx => le_trans (hab b (List.mem_cons_self _ _)) (hbr x hx), hrest'⟩
    case isFalse hne =>
      have hpb : List.Pairwise typeLt (dedupGo b rest) :=
        dedupGo_pairwise rest b (List.sorted_cons.mpr ⟨hbr, hrest'⟩)
      refine List.pairwise_cons.mpr ⟨?_, hpb⟩
      intro x hx
      have hlt : a.type_ < b.type_ :=
        lt_of_le_of_ne (hab b (List.mem_cons_self _ _)) hne
      rcases dedupGo_subset rest b x hx with h' | h'
      · exact h' ▸ hlt
      · exact lt_of_lt_of_le hlt (hbr x h')

theorem dedup_sort_pairwise (l : List Condition) :
    List.Pairwise typeLt (dedup_by_key (sort_by_key l)) := by
  have hs : List.Sorted typeLe (sort_by_key l) := List.sorted_insertionSort typeLe l
  cases hsl : sort_by_key l with
  | nil => simp [dedup_by_key]
  | cons a rest =>
    rw [hsl] at hs
    simpa [dedup_by_key] using dedupGo_pairwise rest a hs

theorem dedup_by_key_keys : ∀ (l : List Condition) (k : String),
    (∃ c ∈ l, c.type_ = k) → ∃ c ∈ dedup_by_key l, c.type_ = k
  | [], k, h => by simp at h
  | a :: rest, k, h => by
    simp only [dedup_by_key]
    apply dedupGo_keys
    obtain ⟨c, hc, hck⟩ := h
    rcases List.mem_cons.mp hc with rfl | hc'
    · exact Or.inl hck
    · exact Or.inr ⟨c, hc', hck⟩

/-- Where a stable sort places an element that was appended last: after every
element whose key is less than or equal to its own. -/
def insertEnd (x : Condition) : List Condition → List Condition
  | [] => [x]
  | y :: ys => if x.type_ < y.type_ then x :: y :: ys else y :: insertEnd x ys

theorem insertEnd_front : ∀ (l : List Condition) (x : Condition),
    (∀ y ∈ l, x.type_ < y.type_) → insertEnd x l = x :: l
  | [], _, _ => rfl
  | y :: ys, x, h => by simp [insertEnd, h y (List.mem_cons_self _ _)]

theorem insertEnd_cases : ∀ (l : List Condition) (u : Condition),
    insertEnd u l = u :: l ∨
      ∃ b t, l = b :: t ∧ ¬u.type_ < b.type_ ∧ insertEnd u l = b :: insertEnd u t
  | [], _ => Or.inl rfl
  | b :: t, u => by
    by_cases h : u.type_ < b.type_
    · exact Or.inl (by simp [insertEnd, h])
    · exact Or.inr ⟨b, t, rfl, h, by simp [insertEnd, h]⟩

theorem insertionSort_append_singleton : ∀ (l : List Condition) (x : Condition),
    List.Sorted typeLe l → List.insertionSort typeLe (l ++ [x]) = insertEnd x l
  | [], x, _ => by simp [insertEnd]
  | a :: l, x, h => by
    rw [List.sorted_cons] at h
    obtain ⟨hal, hl⟩ := h
    have ih := insertionSort_append_singleton l x hl
    simp only [List.cons_append, List.insertionSort]
    rw [show List.insertionSort typeLe (l.append [x]) = insertEnd x l from ih]
    by_cases hxa : x.type_ < a.type_
    · have hax : ¬typeLe a x := fun hc => absurd hxa (not_lt.mpr hc)
      cases l with
      | nil => simp [insertEnd, List.orderedInsert, hxa, hax]
      | cons b l' =>
        have hab : typeLe a b := hal b (List.mem_cons_self _ _)
        have hxb : x.type_ < b.type_ := lt_of_lt_of_le hxa hab
        simp [insertEnd, List.orderedInsert, hxa, hax, hxb, hab]
    · have hax : typeLe a x := not_lt.mp hxa
      cases l with
      | nil => simp [insertEnd, List.orderedInsert, hxa, hax]
      | cons b l' =>
        have hab : typeLe a b := hal b (List.mem_cons_self _ _)
        by_cases hxb : x.type_ < b.type_
        · simp [insertEnd, List.orderedInsert, hxa, hax, hxb]
        · simp [insertEnd, List.orderedInsert, hxa, hax, hxb, hab]

theorem dedup_by_key_cons_cons (a b : Condition) (t : List Condition)
    (hne : a.type_ ≠ b.type_) :
    dedup_by_key (a :: b :: t) = a :: dedup_by_key (b :: t) := by
  simp [dedup_by_key, dedupGo, hne]

theorem dedupGo_of_pairwise : ∀ (l : List Condition) (a : Condition),
    (∀ y ∈ l, a.type_ < y.type_) → List.Pairwise typeLt l → dedupGo a l = a :: l
  | [], _, _, _ => rfl
  | b :: rest, a, ha, hp => by
    have hab : a.type_ < b.type_ := ha b (List.mem_cons_self _ _)
    rw [List.pairwise_cons] at hp
    simp only [dedupGo, if_neg (ne_of_lt hab)]
    rw [dedupGo_of_pairwise rest b hp.1 hp.2]

theorem dedup_insertEnd : ∀ (l : List Condition) (u : Condition),
    List.Pairwise typeLt l → (∃ c ∈ l, c.type_ = u.type_) →
    dedup_by_key (insertEnd u l) = l
  | [], _, _, h => by simp at h
  | a :: l', u, hp, h => by
    rw [List.pairwise_cons] at hp
    obtain ⟨ha, hp'⟩ := hp
    by_cases hua : u.type_ < a.type_
    · exfalso
      obtain ⟨c, hc, hcu⟩ := h
      rcases List.mem_cons.mp hc with rfl | hc'
      · exact absurd hcu.symm (ne_of_lt hua)
      · exact absurd hua (not_lt.mpr (le_of_lt (hcu ▸ ha c hc')))
    · by_cases heq : a.type_ = u.type_
      · have hfront : insertEnd u l' = u :: l' :=
          insertEnd_front l' u (fun y hy => heq ▸ ha y hy)
      -- the inserted duplicate sits right behind the entry with the same key
      -- and is removed by the dedup pass
        simp only [insertEnd, if_neg hua, hfront, dedup_by_key, dedupGo, if_pos heq]
        exact dedupGo_of_pairwise l' a ha hp'
      · obtain ⟨c, hc, hcu⟩ := h
        rcases List.mem_cons.mp hc with rfl | hc'
        · exact absurd hcu heq
        · have ih := dedup_insertEnd l' u hp' ⟨c, hc', hcu⟩
          have step : dedup_by_key (a :: insertEnd u l') =
              a :: dedup_by_key (insertEnd u l') := by
            rcases insertEnd_cases l' u with hcase | ⟨b, t, rfl, hub, hcase⟩
            · rw [hcase]
              exact dedup_by_key_cons_cons a u l'
                (fun hh => heq (hh ▸ rfl))
            · rw [hcase]
              exact dedup_by_key_cons_cons a b (insertEnd u t)
                (ne_of_lt (ha b (List.mem_cons_self _ _)))
          simp only [insertEnd, if_neg hua]
          rw [step, ih]

theorem find?_type_eq_of_pairwise : ∀ (l : List Condition) (c₀ : Condition) (t : String),
    List.Pairwise typeLt l → c₀ ∈ l → c₀.type_ = t →
    l.find? (fun c => c.type_ == t) = some c₀
  | [], c₀, _, _, h, _ => absurd h (List.not_mem_nil c₀)
  | a :: l', c₀, t, hp, hm, ht => by
    rw [List.pairwise_cons] at hp
    rcases List.mem_cons.mp hm with rfl | hm'
    · exact List.find?_cons_of_pos _ (by simp [ht])
    · have hne : ¬a.type_ = t := ne_of_lt (ht ▸ hp.1 c₀ hm')
      rw [List.find?_cons_of_neg _ (by simpa using hne)]
      exact find?_type_eq_of_pairwise l' c₀ t hp.2 hm' ht

theorem conditions_of_condition_mut (d : Dummy) (t : String) (now : Nat) :
    conditions_of (Dummy.condition_mut d t now).1 =
      dedup_by_key (sort_by_key (conditions_of d ++ [generate_unknown_condition t now])) :=
  rfl

theorem snd_condition_mut (d : Dummy) (t : String) (now : Nat) :
    (Dummy.condition_mut d t now).2 =
      (conditions_of (Dummy.condition_mut d t now).1).find? (fun c => c.type_ == t) :=
  rfl

theorem update_condition_time_mono (f : Condition → Condition) (now : Nat) (c : Condition)
    (h : c.last_transition_time ≤ now) :
    c.last_transition_time ≤ (update_condition f now c).last_transition_time := by
  simp only [update_condition]
  split
  · exact h
  · exact le_refl _

/-- C1 counterexample: at this concrete input the resource generation (4)
differs from the condition's observed generation (none), status, reason and
message are left unchanged by the call, yet `last_transition_time` IS updated
(from 0 to 7) — the four-field comparison does classify a generation bump as
a semantic change, contrary to the claim. -/
theorem generation_bump_counterexample :
    (set_generation_from ⟨some 4⟩ 7 ⟨0, "", none, "", "Unknown", "Ready"⟩).status =
        (⟨0, "", none, "", "Unknown", "Ready"⟩ : Condition).status ∧
    (set_generation_from ⟨some 4⟩ 7 ⟨0, "", none, "", "Unknown", "Ready"⟩).reason =
        (⟨0, "", none, "", "Unknown", "Ready"⟩ : Condition).reason ∧
    (set_generation_from ⟨some 4⟩ 7 ⟨0, "", none, "", "Unknown", "Ready"⟩).message =
        (⟨0, "", none, "", "Unknown", "Ready"⟩ : Condition).message ∧
    (set_generation_from ⟨some 4⟩ 7 ⟨0, "", none, "", "Unknown", "Ready"⟩).last_transition_time ≠
        (⟨0, "", none, "", "Unknown", "Ready"⟩ : Condition).last_transition_time := by
  decide

/-- C1 (amended): `set_generation_from` with a resource whose metadata
generation differs from the condition's `observed_generation` is classified
as a semantic change by the four-field comparison (`observed_generation` is
one of the four compared fields): it sets the generation and updates
`last_transition_time` to the current time. Only when the generations already
agree is the condition, timestamp included, left untouched. -/
theorem set_generation_from_updates_time (c : Condition) (g : Option Int) (now : Nat) :
    (c.observed_generation ≠ g →
      set_generation_from ⟨g⟩ now c =
        { c with observed_generation := g, last_transition_time := now }) ∧
    (c.observed_generation = g → set_generation_from ⟨g⟩ now c = c) := by
  have h : set_generation_from ⟨g⟩ now c =
      update_condition (fun c => { c with observed_generation := g }) now c := rfl
  rw [h, update_condition_generation]
  constructor
  · intro hne
    rw [if_neg hne]
  · intro heq
    rw [if_pos heq]

/-- Witness for `set_generation_from_updates_time` at a concrete input. -/
theorem set_generation_from_updates_time_witness :
    (⟨0, "", none, "", "Unknown", "Ready"⟩ : Condition).observed_generation ≠ some 4 ∧
    set_generation_from ⟨some 4⟩ 7 ⟨0, "", none, "", "Unknown", "Ready"⟩ =
      ⟨7, "", some 4, "", "Unknown", "Ready"⟩ :=
  ⟨by decide,
   (set_generation_from_updates_time ⟨0, "", none, "", "Unknown", "Ready"⟩ (some 4) 7).1
     (by decide)⟩

/-- C2: every setter goes through the change-detecting update: setting a
field to its current value leaves the condition — `last_transition_time`
included — completely untouched; setting a different value changes that field
and stamps `last_transition_time` with the current time, which (the clock
being monotone) is ≥ its previous value. -/
theorem setter_no_op_and_update (c : Condition) (now : Nat) (r m : String) (g : Option Int)
    (hclock : c.last_transition_time ≤ now) :
    (set_true now c =
        (if c.status = "True" then c
          else { c with status := "True", last_transition_time := now }) ∧
      c.last_transition_time ≤ (set_true now c).last_transition_time) ∧
    (set_false now c =
        (if c.status = "False" then c
          else { c with status := "False", last_transition_time := now }) ∧
      c.last_transition_time ≤ (set_false now c).last_transition_time) ∧
    (set_unknown now c =
        (if c.status = "Unknown" then c
          else { c with status := "Unknown", last_transition_time := now }) ∧
      c.last_transition_time ≤ (set_unknown now c).last_transition_time) ∧
    (set_reason r now c =
        (if c.reason = r then c
          else { c with reason := r, last_transition_time := now }) ∧
      c.last_transition_time ≤ (set_reason r now c).last_transition_time) ∧
    (set_message m now c =
        (if c.message = m then c
          else { c with message := m, last_transition_time := now }) ∧
      c.last_transition_time ≤ (set_message m now c).last_transition_time) ∧
    (set_generation_from ⟨g⟩ now c =
        (if c.observed_generation = g then c
          else { c with observed_generation := g, last_transition_time := now }) ∧
      c.last_transition_time ≤ (set_generation_from ⟨g⟩ now c).last_transition_time) :=
  ⟨⟨update_condition_status c now "True", update_condition_time_mono _ now c hclock⟩,
    ⟨update_condition_status c now "False", update_condition_time_mono _ now c hclock⟩,
    ⟨update_condition_status c now "Unknown", update_condition_time_mono _ now c hclock⟩,
    ⟨update_condition_reason c now r, update_condition_time_mono _ now c hclock⟩,
    ⟨update_condition_message c now m, update_condition_time_mono _ now c hclock⟩,
    ⟨update_condition_generation c now g, update_condition_time_mono _ now c hclock⟩⟩

/-- Witness for `setter_no_op_and_update`: re-setting the current (empty)
reason is a pure no-op, setting a new reason updates reason and timestamp. -/
theorem setter_no_op_and_update_witness :
    (⟨3, "", none, "", "Unknown", "Ready"⟩ : Condition).last_transition_time ≤ 5 ∧
    set_reason "" 5 ⟨3, "", none, "", "Unknown", "Ready"⟩ =
      ⟨3, "", none, "", "Unknown", "Ready"⟩ ∧
    set_reason "Yoyo" 5 ⟨3, "", none, "", "Unknown", "Ready"⟩ =
      ⟨5, "", none, "Yoyo", "Unknown", "Ready"⟩ := by
  refine ⟨by decide, ?_, ?_⟩
  · have h :=
      (setter_no_op_and_update ⟨3, "", none, "", "Unknown", "Ready"⟩ 5 "" "" none
        (by decide)).2.2.2.1.1
    simpa using h
  · have h :=
      (setter_no_op_and_update ⟨3, "", none, "", "Unknown", "Ready"⟩ 5 "Yoyo" "" none
        (by decide)).2.2.2.1.1
    simpa using h

/-- C6: when no condition with the requested type name exists (for instance
on an empty list), the accessor returns the default condition: status
"Unknown", empty reason, empty message, and no observed generation. -/
theorem condition_default_on_absence (d : Dummy) (t : String) (now : Nat)
    (habsent : ∀ c ∈ conditions_of d, c.type_ ≠ t) :
    Dummy.condition d t now = generate_unknown_condition t now ∧
    (Dummy.condition d t now).status = "Unknown" ∧
    (Dummy.condition d t now).reason = "" ∧
    (Dummy.condition d t now).message = "" ∧
    (Dummy.condition d t now).observed_generation = none := by
  have hfind : (conditions_of d).find? (fun c => c.type_ == t) = none :=
    List.find?_eq_none.mpr (fun c hc => by simpa using habsent c hc)
  unfold Dummy.condition
  rw [hfind]
  exact ⟨rfl, rfl, rfl, rfl, rfl⟩

/-- Witness for `condition_default_on_absence`: the accessor on a fresh
resource (empty condition list). -/
theorem condition_default_on_absence_witness :
    Dummy.condition freshDummy "Ready" 9 = generate_unknown_condition "Ready" 9 :=
  (condition_default_on_absence freshDummy "Ready" 9
    (fun c hc => by simp [conditions_of, freshDummy] at hc)).1

/-- C8: `is_current` holds exactly when the condition's observed generation
equals the resource's metadata generation; in particular observed generation 3
against resource generation 4 reads stale, and after `set_generation_from`
with that resource it reads current. -/
theorem is_current_iff_generation_eq (c : Condition) (g : Option Int) (now : Nat) :
    (is_current c ⟨g⟩ = true ↔ c.observed_generation = g) ∧
    is_current { c with observed_generation := some 3 } ⟨some 4⟩ = false ∧
    is_current
        (set_generation_from ⟨some 4⟩ now { c with observed_generation := some 3 })
        ⟨some 4⟩ = true := by
  refine ⟨?_, ?_, ?_⟩
  · simp [is_current]
  · simp [is_current]
  · have h : set_generation_from ⟨some 4⟩ now { c with observed_generation := some 3 } =
        update_condition (fun x => { x with observed_generation := some 4 }) now
          { c with observed_generation := some 3 } := rfl
    rw [h, update_condition_generation]
    simp [is_current]

/-- C9: the status setters write exactly the three canonical strings (and no
other setter touches the status); for a condition whose status is none of the
three canonical strings, all three status predicates are false. -/
theorem status_canonical (c : Condition) (now : Nat) (r m : String) (g : Option Int) :
    (set_true now c).status = "True" ∧
    (set_false now c).status = "False" ∧
    (set_unknown now c).status = "Unknown" ∧
    (set_reason r now c).status = c.status ∧
    (set_message m now c).status = c.status ∧
    (set_generation_from ⟨g⟩ now c).status = c.status ∧
    (c.status ≠ "True" → c.status ≠ "False" → c.status ≠ "Unknown" →
      is_true c = false ∧ is_false c = false ∧ is_unknown c = false) := by
  refine ⟨?_, ?_, ?_, ?_, ?_, ?_, ?_⟩
  · rw [show set_true now c =
        update_condition (fun x => { x with status := "True" }) now c from rfl,
      update_condition_status]
    split
    next h => exact h
    next => rfl
  · rw [show set_false now c =
        update_condition (fun x => { x with status := "False" }) now c from rfl,
      update_condition_status]
    split
    next h => exact h
    next => rfl
  · rw [show set_unknown now c =
        update_condition (fun x => { x with status := "Unknown" }) now c from rfl,
      update_condition_status]
    split
    next h => exact h
    next => rfl
  · rw [show set_reason r now c =
        update_condition (fun x => { x with reason := r }) now c from rfl,
      update_condition_reason]
    split
    next => rfl
    next => rfl
  · rw [show set_message m now c =
        update_condition (fun x => { x with message := m }) now c from rfl,
      update_condition_message]
    split
    next => rfl
    next => rfl
  · rw [show set_generation_from ⟨g⟩ now c =
        update_condition (fun x => { x with observed_generation := g }) now c from rfl,
      update_condition_generation]
    split
    next => rfl
    next => rfl
  · intro h1 h2 h3
    refine ⟨?_, ?_, ?_⟩ <;> simp [is_true, is_false, is_unknown, h1, h2, h3]

/-- Witness for `status_canonical`: an unrecognized status string satisfies
none of the three predicates. -/
theorem status_canonical_witness :
    is_true ⟨0, "", none, "", "Bogus", "Ready"⟩ = false ∧
    is_false ⟨0, "", none, "", "Bogus", "Ready"⟩ = false ∧
    is_unknown ⟨0, "", none, "", "Bogus", "Ready"⟩ = false :=
  (status_canonical ⟨0, "", none, "", "Bogus", "Ready"⟩ 0 "" "" none).2.2.2.2.2.2
    (by decide) (by decide) (by decide)

/-- C10: on the built-in `Pod` and `Node` implementations the mutator is
`unimplemented!()`: it panics (modelled as `none`) for every resource value
and every type name; only the read accessor is supported for these types. -/
theorem pod_node_condition_mut_panics (p : Pod) (n : Node) (t : String) :
    Pod.condition_mut p t = none ∧ Node.condition_mut n t = none :=
  ⟨rfl, rfl⟩

/-- C7: the read accessor never mutates the caller's resource: seen as a
state transformation it hands back the resource unchanged (hence an identical
condition list), whether or not a matching condition exists, and its answer
is a function of the condition list and type name only. -/
theorem condition_accessor_pure (p p' : Pod) (n n' : Node) (d d' : Dummy)
    (t : String) (now : Nat) :
    (Pod.conditionCall p t now).2 = p ∧
    podConditions (Pod.conditionCall p t now).2 = podConditions p ∧
    (Node.conditionCall n t now).2 = n ∧
    nodeConditions (Node.conditionCall n t now).2 = nodeConditions n ∧
    (Dummy.conditionCall d t now).2 = d ∧
    conditions_of (Dummy.conditionCall d t now).2 = conditions_of d ∧
    (podConditions p = podConditions p' →
      (Pod.conditionCall p t now).1 = (Pod.conditionCall p' t now).1) ∧
    (nodeConditions n = nodeConditions n' →
      (Node.conditionCall n t now).1 = (Node.conditionCall n' t now).1) ∧
    (conditions_of d = conditions_of d' →
      (Dummy.conditionCall d t now).1 = (Dummy.conditionCall d' t now).1) := by
  refine ⟨rfl, rfl, rfl, rfl, rfl, rfl, ?_, ?_, ?_⟩
  · intro h
    show Pod.condition p t now = Pod.condition p' t now
    unfold Pod.condition
    rw [h]
  · intro h
    show Node.condition n t now = Node.condition n' t now
    unfold Node.condition
    rw [h]
  · intro h
    show Dummy.condition d t now = Dummy.condition d' t now
    unfold Dummy.condition
    rw [h]

/-- Witness for `condition_accessor_pure`: two pods with distinct status
values but identical (empty) condition lists give the same answer. -/
theorem condition_accessor_pure_witness :
    Pod.condition ⟨none⟩ "Ready" 3 = Pod.condition ⟨some ⟨none⟩⟩ "Ready" 3 :=
  (condition_accessor_pure ⟨none⟩ ⟨some ⟨none⟩⟩ ⟨none⟩ ⟨none⟩ freshDummy freshDummy
    "Ready" 3).2.2.2.2.2.2.1 rfl

/-- C3: for any starting resource and any finite sequence of `condition_mut`
calls with arbitrary type names, after each call the condition list is sorted
lexicographically by type name and holds at most one condition per type name
(the call shown is an arbitrary call, preceded by an arbitrary prefix of
calls). -/
theorem condition_mut_sorted_unique (d : Dummy) (calls : List (String × Nat))
    (t : String) (now : Nat) :
    List.Sorted (· ≤ ·)
        (List.map Condition.type_
          (conditions_of (Dummy.condition_mut (run_calls d calls) t now).1)) ∧
    List.Nodup
        (List.map Condition.type_
          (conditions_of (Dummy.condition_mut (run_calls d calls) t now).1)) := by
  have hp := dedup_sort_pairwise
    (conditions_of (run_calls d calls) ++ [generate_unknown_condition t now])
  rw [conditions_of_condition_mut]
  constructor
  · exact List.pairwise_map.mpr (hp.imp (fun h => le_of_lt h))
  · exact List.pairwise_map.mpr (hp.imp (fun h => ne_of_lt h))

/-- C5: the re-lookup by type name at the end of `condition_mut`, after the
push, sort and dedup steps, succeeds for every starting list and type name:
the unwrapped find is always `some`. -/
theorem condition_mut_unwrap_safe (d : Dummy) (t : String) (now : Nat) :
    ((Dummy.condition_mut d t now).2).isSome = true := by
  rw [snd_condition_mut, conditions_of_condition_mut]
  have hsorted :
      ∃ c ∈ sort_by_key (conditions_of d ++ [generate_unknown_condition t now]),
        c.type_ = t :=
    ⟨generate_unknown_condition t now,
      by simp [sort_by_key, List.mem_insertionSort], rfl⟩
  obtain ⟨c, hc, hck⟩ := dedup_by_key_keys _ t hsorted
  rw [List.find?_isSome]
  exact ⟨c, hc, by simp [hck]⟩

/-- C4: calling the mutator with a type name that already has an entry in a
well-formed list (sorted with one entry per type name, the invariant the
mutator maintains) leaves the list — and so every field of the pre-existing
condition, its `last_transition_time` included — unchanged and returns
exactly the pre-existing entry; in particular two calls with the same type
name on a fresh resource leave a list of length 1. -/
theorem condition_mut_existing_entry (d : Dummy) (t : String) (now n₂ : Nat)
    (c₀ : Condition) (hwf : List.Pairwise typeLt (conditions_of d))
    (hmem : c₀ ∈ conditions_of d) (ht : c₀.type_ = t) :
    conditions_of (Dummy.condition_mut d t now).1 = conditions_of d ∧
    (Dummy.condition_mut d t now).2 = some c₀ ∧
    (conditions_of
        (Dummy.condition_mut (Dummy.condition_mut freshDummy t now).1 t n₂).1).length = 1 := by
  have hsorted : List.Sorted typeLe (conditions_of d) := hwf.imp (fun h => le_of_lt h)
  have h1 : sort_by_key (conditions_of d ++ [generate_unknown_condition t now]) =
      insertEnd (generate_unknown_condition t now) (conditions_of d) :=
    insertionSort_append_singleton _ _ hsorted
  have h2 : dedup_by_key (insertEnd (generate_unknown_condition t now) (conditions_of d)) =
      conditions_of d :=
    dedup_insertEnd _ _ hwf ⟨c₀, hmem, ht⟩
  have hlist : conditions_of (Dummy.condition_mut d t now).1 = conditions_of d := by
    rw [conditions_of_condition_mut, h1, h2]
  refine ⟨hlist, ?_, ?_⟩
  · rw [snd_condition_mut, hlist]
    exact find?_type_eq_of_pairwise _ c₀ t hwf hmem ht
  · have hfresh : conditions_of (Dummy.condition_mut freshDummy t now).1 =
        [generate_unknown_condition t now] := rfl
    have h1' : sort_by_key
          ([generate_unknown_condition t now] ++ [generate_unknown_condition t n₂]) =
        insertEnd (generate_unknown_condition t n₂) [generate_unknown_condition t now] :=
      insertionSort_append_singleton _ _ (List.sorted_singleton _)
    have h2' : dedup_by_key
          (insertEnd (generate_unknown_condition t n₂) [generate_unknown_condition t now]) =
        [generate_unknown_condition t now] :=
      dedup_insertEnd _ _ (by simp) ⟨generate_unknown_condition t now, by simp, rfl⟩
    rw [conditions_of_condition_mut, hfresh, h1', h2']
    rfl

/-- Witness for `condition_mut_existing_entry`: a singleton well-formed list
holding a "Ready" condition is left untouched and the entry is returned. -/
theorem condition_mut_existing_entry_witness :
    conditions_of
        (Dummy.condition_mut ⟨⟨none⟩, some ⟨some [⟨1, "", none, "", "True", "Ready"⟩]⟩⟩
          "Ready" 5).1 =
      conditions_of ⟨⟨none⟩, some ⟨some [⟨1, "", none, "", "True", "Ready"⟩]⟩⟩ ∧
    (Dummy.condition_mut ⟨⟨none⟩, some ⟨some [⟨1, "", none, "", "True", "Ready"⟩]⟩⟩
        "Ready" 5).2 =
      some ⟨1, "", none, "", "True", "Ready"⟩ ∧
    (conditions_of
        (Dummy.condition_mut (Dummy.condition_mut freshDummy "Ready" 5).1 "Ready" 8).1).length = 1 :=
  condition_mut_existing_entry ⟨⟨none⟩, some ⟨some [⟨1, "", none, "", "True", "Ready"⟩]⟩⟩
    "Ready" 5 8 ⟨1, "", none, "", "True", "Ready"⟩
    (by simp [conditions_of]) (by simp [conditions_of]) rfl
